import Mathlib

/-!
Verification of the structural segmentation engine of `app/utils/crawl.py`
(`VBPLCrawler.parse` and its regex helpers).  Texts are modelled as lists of
characters; each of the four Python regexes (`chuong_regex`, `muc_regex`,
`dieu_regex`, `title_regex`) is embedded as an explicit scanner that mirrors
the backtracking behaviour of the Python `re` engine on these concrete
patterns, and `re.findall` is embedded as a leftmost scan with single-character
bump-along on failure.
-/

namespace Crawl

abbrev Text := List Char

def s2t (s : String) : Text := s.data

/-- Python `\s` on the inputs at hand (ASCII whitespace classes). -/
def isWS (c : Char) : Bool :=
  c == ' ' || c == '\n' || c == '\t' || c == '\r' || c == '\x0b' || c == '\x0c'

/-- The character class `[MDCLXVI]` of `chuong_regex`. -/
def isRoman (c : Char) : Bool :=
  c == 'M' || c == 'D' || c == 'C' || c == 'L' || c == 'X' || c == 'V' || c == 'I'

/-- The character class `[0-9]`. -/
def isDigitCh (c : Char) : Bool := '0' ≤ c && c ≤ '9'

/-- Lower-casing for the `re.IGNORECASE` flag of `title_regex`; covers ASCII
and the upper-case Vietnamese letters occurring in the marker keywords. -/
def charLower (c : Char) : Char :=
  if c == 'Đ' then 'đ'
  else if c == 'Ề' then 'ề'
  else if c == 'Ụ' then 'ụ'
  else if c == 'Ư' then 'ư'
  else if c == 'Ơ' then 'ơ'
  else if 'A' ≤ c && c ≤ 'Z' then Char.ofNat (c.toNat + 32)
  else c

/-- Case-insensitive prefix test (for the ignore-case `title_regex`). -/
def ciIsPrefixOf : Text → Text → Bool
  | [], _ => true
  | _ :: _, [] => false
  | a :: as, b :: bs => charLower a == charLower b && ciIsPrefixOf as bs

def kwChuong : Text := s2t "Chương"
def kwMuc : Text := s2t "Mục"
def kwDieu : Text := s2t "Điều"

/-- Group 1 of `chuong_regex` read at the current position:
`Chương\s*([MDCLXVI]+)`; returns the group text and the rest, or `none`
when the keyword or the roman-numeral run is absent. -/
def chuong_id (t : Text) : Option (Text × Text) :=
  if kwChuong.isPrefixOf t then
    let t1 := t.drop kwChuong.length
    let w := t1.takeWhile isWS
    let t2 := t1.dropWhile isWS
    let r := t2.takeWhile isRoman
    if r.isEmpty then none
    else some (kwChuong ++ w ++ r, t2.dropWhile isRoman)
  else none

/-- The lookahead `(?=\n+\s*Chương\s*[MDCLXVI]+)` of `chuong_regex`. -/
def chuong_lookahead (t : Text) : Bool :=
  match t with
  | '\n' :: _ => (chuong_id (t.dropWhile isWS)).isSome
  | _ => false

/-- Head of a Mục marker: `Mục\s*[0-9]+` at the current position. -/
def muc_head (t : Text) : Bool :=
  kwMuc.isPrefixOf t &&
    !(((t.drop kwMuc.length).dropWhile isWS).takeWhile isDigitCh).isEmpty

/-- The lookahead `(?=\n+\s*Mục\s*[0-9]+|\n+\s*Chương\s*[MDCLXVI]+)` of
`muc_regex`. -/
def muc_lookahead (t : Text) : Bool :=
  match t with
  | '\n' :: _ =>
    let u := t.dropWhile isWS
    muc_head u || (chuong_id u).isSome
  | _ => false

/-- Head of the next-article lookahead of `dieu_regex`:
`Điều\s*[0-9]+\\*\.` at the current position. -/
def dieu_next_marker (t : Text) : Bool :=
  kwDieu.isPrefixOf t &&
    (let t1 := (t.drop kwDieu.length).dropWhile isWS
     let d := t1.takeWhile isDigitCh
     !d.isEmpty &&
       ((t1.dropWhile isDigitCh).dropWhile (fun c => c == '\\')).head?.getD ' ' == '.')

/-- The lookahead `(?=\n+\s*Điều\s*[0-9]+\\*\.)` of `dieu_regex`. -/
def dieu_lookahead (t : Text) : Bool :=
  match t with
  | '\n' :: _ => dieu_next_marker (t.dropWhile isWS)
  | _ => false

/-- The lazy tail `[\s\S]*?` before a lookahead: consume characters until the
lookahead holds (or the end of text), returning the consumed span and the
rest. -/
def scan_until (look : Text → Bool) : Text → Text × Text
  | [] => ([], [])
  | c :: cs =>
    if look (c :: cs) then ([], c :: cs)
    else
      let p := scan_until look cs
      (c :: p.1, p.2)

/-- One match of `chuong_regex`; the full matched span is
`pre ++ id_text ++ mid ++ body`. -/
structure ChMatch where
  pre : Text
  id_text : Text
  mid : Text
  body : Text
deriving DecidableEq, Repr

def ChMatch.full (m : ChMatch) : Text := m.pre ++ m.id_text ++ m.mid ++ m.body

/-- `chuong_regex` matched at the current position:
`\n*\s*(Chương\s*([MDCLXVI]+))\s*([\s\S]*?)(?=\n+\s*Chương\s*[MDCLXVI]+|\Z)`.
Returns the match and the rest of the text after the match. -/
def chuong_match_at (t : Text) : Option (ChMatch × Text) :=
  let pre := t.takeWhile isWS
  let t1 := t.dropWhile isWS
  match chuong_id t1 with
  | none => none
  | some (idt, t2) =>
    let mid := t2.takeWhile isWS
    let t3 := t2.dropWhile isWS
    let p := scan_until chuong_lookahead t3
    some (⟨pre, idt, mid, p.1⟩, p.2)

/-- One match of `muc_regex`; code uses groups 1 (`id_text`) and 2 (`body`). -/
structure MucMatch where
  pre : Text
  id_text : Text
  body : Text
deriving DecidableEq, Repr

/-- `muc_regex` matched at the current position:
`\n*\s*(Mục\s*[0-9]+)([\s\S]+?)(?=\n+\s*Mục\s*[0-9]+|\n+\s*Chương\s*[MDCLXVI]+|\Z)`.
When the digits end the text the engine backtracks `[0-9]+` by one digit so
that the one-or-more lazy body is non-empty. -/
def muc_match_at (t : Text) : Option (MucMatch × Text) :=
  let pre := t.takeWhile isWS
  let t1 := t.dropWhile isWS
  if kwMuc.isPrefixOf t1 then
    let t2 := t1.drop kwMuc.length
    let w := t2.takeWhile isWS
    let t3 := t2.dropWhile isWS
    let d := t3.takeWhile isDigitCh
    if d.isEmpty then none
    else
      match t3.dropWhile isDigitCh with
      | [] =>
        if 2 ≤ d.length then
          some (⟨pre, kwMuc ++ w ++ d.dropLast, [d.getLastD ' ']⟩, [])
        else none
      | c :: cs =>
        let p := scan_until muc_lookahead cs
        some (⟨pre, kwMuc ++ w ++ d, c :: p.1⟩, p.2)
  else none

/-- `dieu_regex` matched at the current position:
`\n*\s*(Điều\s*[0-9]*\\*\.+[\s\S]+?)(?=\n+\s*Điều\s*[0-9]+\\*\.|\Z)`.
`findall` keeps only group 1, which spans from the keyword to the end of the
lazy body.  When the period run ends the text the engine backtracks `\.+` by
one period so that the one-or-more lazy body is non-empty. -/
def dieu_match_at (t : Text) : Option (Text × Text) :=
  let t1 := t.dropWhile isWS
  if kwDieu.isPrefixOf t1 then
    let t2 := t1.drop kwDieu.length
    let w := t2.takeWhile isWS
    let t3 := t2.dropWhile isWS
    let d := t3.takeWhile isDigitCh
    let t4 := t3.dropWhile isDigitCh
    let b := t4.takeWhile (fun c => c == '\\')
    let t5 := t4.dropWhile (fun c => c == '\\')
    let p := t5.takeWhile (fun c => c == '.')
    if p.isEmpty then none
    else
      match t5.dropWhile (fun c => c == '.') with
      | [] =>
        if 2 ≤ p.length then some (kwDieu ++ w ++ d ++ b ++ p, []) else none
      | c :: cs =>
        let q := scan_until dieu_lookahead cs
        some (kwDieu ++ w ++ d ++ b ++ p ++ (c :: q.1), q.2)
  else none

/-- `re.findall`: leftmost match, then continue after it; on failure advance
one character.  `fuel` bounds the number of steps. -/
def findall_aux {α : Type} (matcher : Text → Option (α × Text)) :
    Nat → Text → List α
  | 0, _ => []
  | Nat.succ fuel, t =>
    match matcher t with
    | some (a, rest) => a :: findall_aux matcher fuel rest
    | none =>
      match t with
      | [] => []
      | _ :: cs => findall_aux matcher fuel cs

def chuong_findall (t : Text) : List ChMatch :=
  findall_aux chuong_match_at (t.length + 1) t

def muc_findall (t : Text) : List MucMatch :=
  findall_aux muc_match_at (t.length + 1) t

def dieu_findall (t : Text) : List Text :=
  findall_aux dieu_match_at (t.length + 1) t

/-- Core of the lookahead of `title_regex` (with `re.IGNORECASE`):
`Điều\s*[0-9]+` or `Mục\s*[0-9]+` at the current position. -/
def title_boundary_core (t : Text) : Bool :=
  (ciIsPrefixOf kwDieu t &&
    !(((t.drop kwDieu.length).dropWhile isWS).takeWhile isDigitCh).isEmpty) ||
  (ciIsPrefixOf kwMuc t &&
    !(((t.drop kwMuc.length).dropWhile isWS).takeWhile isDigitCh).isEmpty)

/-- The lookahead `(?=\n+\s*Điều\s*[0-9]+|\n+\s*Mục\s*[0-9]+)` of
`title_regex`. -/
def title_lookahead (t : Text) : Bool :=
  match t with
  | '\n' :: _ => title_boundary_core (t.dropWhile isWS)
  | _ => false

/-- Position of the first title boundary at offset at least one (the lazy
group `([\s\S]+?)` needs one character). -/
def first_boundary : Text → Option Nat
  | [] => none
  | _ :: cs => if title_lookahead cs then some 1 else (first_boundary cs).map (· + 1)

/-- `title_regex.search(body)`, returning `group(0)`: the shortest non-empty
prefix whose end is followed by the lookahead. -/
def title_search (t : Text) : Option Text :=
  (first_boundary t).map (fun e => t.take e)

/-- The character class `[#*_\[\]\(\)-]` removed by the title cleaning. -/
def isDecor (c : Char) : Bool :=
  c == '#' || c == '*' || c == '_' || c == '[' || c == ']' ||
  c == '(' || c == ')' || c == '-'

/-- `re.sub(r'[#*_\[\]\(\)-]', '', s)`. -/
def remove_decor (t : Text) : Text := t.filter (fun c => !isDecor c)

/-- `re.sub(r'\s+', ' ', s)`: each maximal whitespace run becomes one space. -/
def collapse_ws : Text → Text
  | [] => []
  | [c] => if isWS c then [' '] else [c]
  | a :: b :: rest =>
    if isWS a then
      if isWS b then collapse_ws (b :: rest) else ' ' :: collapse_ws (b :: rest)
    else a :: collapse_ws (b :: rest)

/-- Remove trailing whitespace. -/
def drop_trail_ws : Text → Text
  | [] => []
  | c :: cs =>
    match drop_trail_ws cs with
    | [] => if isWS c then [] else [c]
    | r => c :: r

/-- Python `str.strip()`. -/
def py_strip (t : Text) : Text := drop_trail_ws (t.dropWhile isWS)

/-- The title cleaning on line 341/359/400 of `crawl.py`:
`re.sub(r'\s+', ' ', re.sub(r'[#*_\[\]\(\)-]', '', m)).strip()`. -/
def clean_title (t : Text) : Text := py_strip (collapse_ws (remove_decor t))

/-- Python `str.replace(pat, '')`: remove every left-to-right non-overlapping
occurrence of `pat` in one pass. -/
def replace_all_aux (pat : Text) : Nat → Text → Text
  | 0, t => t
  | Nat.succ _, [] => []
  | Nat.succ fuel, c :: cs =>
    if pat.isPrefixOf (c :: cs) then replace_all_aux pat fuel ((c :: cs).drop pat.length)
    else c :: replace_all_aux pat fuel cs

def replace_all (t pat : Text) : Text :=
  if pat.isEmpty then t else replace_all_aux pat t.length t

/-- Removal of only the first occurrence of `pat` (the behaviour the claim
about the remainder computation describes). -/
def remove_first_aux (pat : Text) : Text → Text
  | [] => []
  | c :: cs =>
    if pat.isPrefixOf (c :: cs) then (c :: cs).drop pat.length
    else c :: remove_first_aux pat cs

def remove_first (t pat : Text) : Text :=
  if pat.isEmpty then t else remove_first_aux pat t

/-- Number of left-to-right non-overlapping occurrences of `pat` in `t`. -/
def count_occ_aux (pat : Text) : Nat → Text → Nat
  | 0, _ => 0
  | Nat.succ _, [] => 0
  | Nat.succ fuel, c :: cs =>
    if pat.isPrefixOf (c :: cs) then count_occ_aux pat fuel ((c :: cs).drop pat.length) + 1
    else count_occ_aux pat fuel cs

def count_occ (t pat : Text) : Nat :=
  if pat.isEmpty then 0 else count_occ_aux pat t.length t

/-- The `VBPLSection` names used in the emitted dictionaries. -/
inductive NodeType where
  | CHAPTER
  | SECTION
  | ARTICLE
deriving DecidableEq, Repr

/-- One emitted dictionary; fields a given kind leaves unset are empty. -/
inductive Node where
  | node (type : NodeType) (id_text : Text) (title : Text) (content : Text)
      (children : List Node)

def Node.type : Node → NodeType
  | .node ty _ _ _ _ => ty

def Node.id_text : Node → Text
  | .node _ i _ _ _ => i

def Node.title : Node → Text
  | .node _ _ ti _ _ => ti

def Node.content : Node → Text
  | .node _ _ _ c _ => c

def Node.children : Node → List Node
  | .node _ _ _ _ ch => ch

/-- The title/body split repeated at lines 339-345, 357-363 and 398-404 of
`crawl.py`: search `title_regex`, clean the match, and remove the cleaned
title from the body by `str.replace` before stripping. -/
def split_title (body : Text) : Text × Text :=
  match title_search body with
  | some m =>
    let title := clean_title m
    (title, py_strip (replace_all body title))
  | none => ([], py_strip body)

/-- An ARTICLE dictionary: `{"type": "ARTICLE", "content": dieu.replace('*', '').strip()}`. -/
def dieu_node (dieu : Text) : Node :=
  .node .ARTICLE [] [] (py_strip (replace_all dieu (s2t "*"))) []

/-- A SECTION dictionary with its ARTICLE children. -/
def muc_node (m : MucMatch) : Node :=
  let p := split_title m.body
  .node .SECTION (py_strip m.id_text) p.1 [] ((dieu_findall p.2).map dieu_node)

/-- A CHAPTER dictionary: SECTION children when `muc_regex` matches inside the
chapter remainder, otherwise ARTICLE children. -/
def chuong_node (m : ChMatch) : Node :=
  let p := split_title m.body
  let mucs := muc_findall p.2
  if mucs.isEmpty then
    .node .CHAPTER (py_strip m.id_text) p.1 [] ((dieu_findall p.2).map dieu_node)
  else
    .node .CHAPTER (py_strip m.id_text) p.1 [] (mucs.map muc_node)

/-- The segmentation cascade of `VBPLCrawler.parse` (lines 323-425):
chapters first, else sections, else flat articles. -/
def parse_data (content : Text) : List Node :=
  let chuongs := chuong_findall content
  if chuongs.isEmpty then
    let mucs := muc_findall content
    if mucs.isEmpty then (dieu_findall content).map dieu_node
    else mucs.map muc_node
  else chuongs.map chuong_node

/-- Observable outcome of a `parse` invocation: the file writes it performs
and the emitted node list. -/
structure ParseOutcome where
  writes : List (Text × Text)
  data : List Node

/-- Lines 315-320 and onwards of `parse`, given the extracted content string:
an empty content returns `{}` before any write; otherwise the content is
written to `content.txt` and segmented. -/
def parse_content (content : Text) : ParseOutcome :=
  if content.isEmpty then ⟨[], []⟩
  else ⟨[(s2t "content.txt", content)], parse_data content⟩

/-- Line 315 of `parse`: `soup.find('div', class_='toanvancontent')` may
return `None`, in which case `.get_text(strip=False)` raises
`AttributeError` (modelled as `Except.error`). -/
def parse_from_soup (find_result : Option Text) : Except Unit ParseOutcome :=
  match find_result with
  | none => Except.error ()
  | some content => Except.ok (parse_content content)

/-- Whitespace-normal form: every whitespace character is a plain space and no
two whitespace characters are adjacent. -/
def good_ws : Text → Bool
  | [] => true
  | [c] => !isWS c || c == ' '
  | a :: b :: rest =>
    (!isWS a || (a == ' ' && !isWS b)) && good_ws (b :: rest)

mutual

/-- Every ARTICLE node in the tree has a `content` without `'*'`. -/
def star_free : Node → Bool
  | .node ty _ _ c ch =>
    (ty != NodeType.ARTICLE || c.all (fun x => x != '*')) && star_free_list ch

def star_free_list : List Node → Bool
  | [] => true
  | n :: ns => star_free n && star_free_list ns

end

/-! ### Basic facts about the scanners -/

theorem isPrefixOf_append_drop {p t : Text} (h : p.isPrefixOf t = true) :
    t = p ++ t.drop p.length := by
  obtain ⟨r, hr⟩ := List.isPrefixOf_iff_prefix.mp h
  rw [← hr, List.drop_left]

theorem scan_until_append (look : Text → Bool) (t : Text) :
    (scan_until look t).1 ++ (scan_until look t).2 = t := by
  induction t with
  | nil => simp [scan_until]
  | cons c cs ih =>
    simp only [scan_until]
    by_cases h : look (c :: cs)
    · simp [h]
    · simp [h, ih]

theorem scan_until_post (look : Text → Bool) (t : Text) :
    (scan_until look t).2 = [] ∨ look (scan_until look t).2 = true := by
  induction t with
  | nil => left; simp [scan_until]
  | cons c cs ih =>
    simp only [scan_until]
    by_cases h : look (c :: cs)
    · right; simp [h]
    · simpa [h] using ih

theorem chuong_id_eq {t idt r : Text} (h : chuong_id t = some (idt, r)) :
    t = idt ++ r ∧ idt ≠ [] := by
  simp only [chuong_id] at h
  split at h
  case isTrue hp =>
    split at h
    case isTrue => exact absurd h (by simp)
    case isFalse hr =>
      injection h with h'
      obtain ⟨h1, h2⟩ := Prod.mk.injEq .. ▸ h'
      constructor
      · have ht : t = kwChuong ++ t.drop kwChuong.length := isPrefixOf_append_drop hp
        have h3 : t.drop kwChuong.length =
            (t.drop kwChuong.length).takeWhile isWS ++
              (t.drop kwChuong.length).dropWhile isWS :=
          (List.takeWhile_append_dropWhile ..).symm
        have h4 : (t.drop kwChuong.length).dropWhile isWS =
            ((t.drop kwChuong.length).dropWhile isWS).takeWhile isRoman ++
              ((t.drop kwChuong.length).dropWhile isWS).dropWhile isRoman :=
          (List.takeWhile_append_dropWhile ..).symm
        rw [← h1, ← h2]
        conv_lhs => rw [ht, h3]
        conv_lhs => rw [h4]
        simp [List.append_assoc]
      · rw [← h1]
        simp [kwChuong, s2t]
  case isFalse => exact absurd h (by simp)

theorem chuong_match_at_eq {t : Text} {m : ChMatch} {rest : Text}
    (h : chuong_match_at t = some (m, rest)) :
    t = m.full ++ rest ∧ m.id_text ≠ [] ∧
      rest = (scan_until chuong_lookahead
        (((t.dropWhile isWS).drop m.id_text.length).dropWhile isWS)).2 := by
  simp only [chuong_match_at] at h
  cases hid : chuong_id (t.dropWhile isWS) with
  | none => rw [hid] at h; exact absurd h (by simp)
  | some pr =>
    obtain ⟨idt, t2⟩ := pr
    rw [hid] at h
    simp only at h
    injection h with h'
    obtain ⟨h1, h2⟩ := Prod.mk.injEq .. ▸ h'
    obtain ⟨hsplit, hne⟩ := chuong_id_eq hid
    have hdrop : (t.dropWhile isWS).drop idt.length = t2 := by
      rw [hsplit, List.drop_left]
    refine ⟨?_, ?_, ?_⟩
    · have ht : t = t.takeWhile isWS ++ t.dropWhile isWS :=
        (List.takeWhile_append_dropWhile ..).symm
      have ht2 : t2 = t2.takeWhile isWS ++ t2.dropWhile isWS :=
        (List.takeWhile_append_dropWhile ..).symm
      have hscan : (scan_until chuong_lookahead (t2.dropWhile isWS)).1 ++
          (scan_until chuong_lookahead (t2.dropWhile isWS)).2 = t2.dropWhile isWS :=
        scan_until_append ..
      rw [← h1, ← h2, ChMatch.full]
      conv_lhs => rw [ht, hsplit]
      conv_lhs => rw [ht2]
      conv_lhs => rw [← hscan]
      simp [List.append_assoc]
    · rw [← h1]; exact hne
    · rw [← h1, ← h2]
      simp [hdrop]

theorem chuong_lookahead_matches {t : Text} (h : chuong_lookahead t = true) :
    (chuong_match_at t).isSome = true := by
  unfold chuong_lookahead at h
  match t with
  | [] => simp at h
  | c :: cs =>
    simp only [chuong_match_at]
    cases hid : chuong_id ((c :: cs).dropWhile isWS) with
    | none =>
      exfalso
      split at h
      · rw [hid] at h; simp at h
      · simp at h
    | some pr => obtain ⟨idt, t2⟩ := pr; simp

theorem chuong_match_at_progress {t : Text} {m : ChMatch} {rest : Text}
    (h : chuong_match_at t = some (m, rest)) :
    rest = [] ∨ (chuong_match_at rest).isSome = true := by
  obtain ⟨-, -, hrest⟩ := chuong_match_at_eq h
  rcases scan_until_post chuong_lookahead
      (((t.dropWhile isWS).drop m.id_text.length).dropWhile isWS) with hnil | hlook
  · left; rw [hrest]; exact hnil
  · right; rw [hrest]; exact chuong_lookahead_matches hlook

theorem chuong_match_at_rest_lt {t : Text} {m : ChMatch} {rest : Text}
    (h : chuong_match_at t = some (m, rest)) : rest.length < t.length := by
  obtain ⟨hsplit, hne, -⟩ := chuong_match_at_eq h
  have : m.full.length + rest.length = t.length := by
    rw [hsplit, List.length_append]
  have hfull : 0 < m.full.length := by
    rcases m with ⟨pre, idt, mid, body⟩
    cases idt with
    | nil => exact absurd rfl hne
    | cons x xs => simp [ChMatch.full]
  omega

theorem chuong_match_at_nil : chuong_match_at [] = none := by decide

theorem chuong_findall_aux_nil (fuel : Nat) :
    findall_aux chuong_match_at fuel [] = [] := by
  cases fuel with
  | zero => rfl
  | succ fuel => simp [findall_aux, chuong_match_at_nil]

theorem chuong_findall_aux_join :
    ∀ (fuel : Nat) (t : Text), t.length < fuel →
      (chuong_match_at t).isSome = true →
      ((findall_aux chuong_match_at fuel t).map ChMatch.full).flatten = t := by
  intro fuel
  induction fuel with
  | zero => intro t ht _; omega
  | succ fuel ih =>
    intro t ht hs
    obtain ⟨⟨m, rest⟩, hm⟩ := Option.isSome_iff_exists.mp hs
    obtain ⟨hsplit, -, -⟩ := chuong_match_at_eq hm
    have hlt : rest.length < t.length := chuong_match_at_rest_lt hm
    simp only [findall_aux, hm, List.map_cons, List.flatten_cons]
    rcases chuong_match_at_progress hm with hnil | hsome
    · subst hnil
      rw [chuong_findall_aux_nil]
      simpa using hsplit.symm
    · rw [ih rest (by omega) hsome]
      exact hsplit.symm

theorem chuong_findall_aux_suffix :
    ∀ (fuel : Nat) (t : Text), t.length < fuel →
      ∃ pre, t = pre ++ ((findall_aux chuong_match_at fuel t).map ChMatch.full).flatten := by
  intro fuel
  induction fuel with
  | zero => intro t ht; omega
  | succ fuel ih =>
    intro t ht
    cases hm : chuong_match_at t with
    | some pr =>
      refine ⟨[], ?_⟩
      have := chuong_findall_aux_join (fuel + 1) t ht (by simp [hm])
      simpa using this.symm
    | none =>
      cases t with
      | nil => exact ⟨[], by simp [chuong_findall_aux_nil]⟩
      | cons c cs =>
        simp only [findall_aux, hm]
        obtain ⟨pre, hpre⟩ := ih cs (by simp at ht ⊢; omega)
        exact ⟨c :: pre, by simpa using hpre⟩

/-! ### `str.replace` versus first-occurrence removal -/

theorem replace_all_aux_of_no_occ (pat : Text) :
    ∀ (fuel : Nat) (t : Text), count_occ_aux pat fuel t = 0 →
      replace_all_aux pat fuel t = t := by
  intro fuel
  induction fuel with
  | zero => intro t _; rfl
  | succ fuel ih =>
    intro t h
    cases t with
    | nil => rfl
    | cons c cs =>
      by_cases hp : pat.isPrefixOf (c :: cs) = true
      · simp [count_occ_aux, hp] at h
      · simp only [count_occ_aux, hp, if_neg, Bool.false_eq_true, if_false] at h
        simp only [replace_all_aux, hp, Bool.false_eq_true, if_false]
        rw [ih cs h]

theorem replace_all_aux_eq_remove_first_aux (pat : Text) :
    ∀ (fuel : Nat) (t : Text), t.length ≤ fuel → count_occ_aux pat fuel t ≤ 1 →
      replace_all_aux pat fuel t = remove_first_aux pat t := by
  intro fuel
  induction fuel with
  | zero =>
    intro t hlen _
    have : t = [] := List.length_eq_zero.mp (Nat.le_zero.mp hlen)
    subst this; rfl
  | succ fuel ih =>
    intro t hlen h
    cases t with
    | nil => rfl
    | cons c cs =>
      by_cases hp : pat.isPrefixOf (c :: cs) = true
      · simp only [count_occ_aux, hp, if_pos] at h
        simp only [replace_all_aux, remove_first_aux, hp, if_pos]
        exact replace_all_aux_of_no_occ pat fuel _ (by omega)
      · simp only [count_occ_aux, hp, Bool.false_eq_true, if_false] at h
        simp only [replace_all_aux, remove_first_aux, hp, Bool.false_eq_true, if_false]
        rw [ih cs (by simp at hlen; omega) h]

theorem replace_all_eq_remove_first {t pat : Text} (h : count_occ t pat ≤ 1) :
    replace_all t pat = remove_first t pat := by
  by_cases hp : pat.isEmpty = true
  · simp [replace_all, remove_first, hp]
  · simp only [replace_all, remove_first, hp, Bool.false_eq_true, if_false]
    exact replace_all_aux_eq_remove_first_aux pat t.length t le_rfl
      (by simpa [count_occ, hp] using h)

/-! ### Absent boundaries make the title empty -/

theorem first_boundary_of_no_core {t : Text}
    (h : ∀ s ∈ t.tails, title_boundary_core s = false) :
    first_boundary t = none := by
  induction t with
  | nil => rfl
  | cons c cs ih =>
    have hsub : ∀ s ∈ cs.tails, title_boundary_core s = false := by
      intro s hs
      exact h s ((List.mem_tails ..).mpr
        (((List.mem_tails ..).mp hs).trans (List.suffix_cons c cs)))
    have hlook : title_lookahead cs = false := by
      unfold title_lookahead
      match cs with
      | [] => rfl
      | d :: ds =>
        split
        · exact hsub _ ((List.mem_tails ..).mpr (List.dropWhile_suffix isWS))
        · rfl
    simp [first_boundary, hlook, ih hsub]

/-! ### Whitespace collapse and strip -/

theorem mem_collapse_ws {c : Char} :
    ∀ {t : Text}, c ∈ collapse_ws t → c = ' ' ∨ c ∈ t := by
  intro t
  induction t using collapse_ws.induct with
  | case1 => simp [collapse_ws]
  | case2 d hd =>
    intro hc
    simp [collapse_ws, hd] at hc
    left; exact hc
  | case3 d hd =>
    intro hc
    simp [collapse_ws, hd] at hc
    right; simp [hc]
  | case4 a b rest ha hb ih =>
    intro hc
    rw [show collapse_ws (a :: b :: rest) = collapse_ws (b :: rest) by
      simp [collapse_ws, ha, hb]] at hc
    rcases ih hc with h | h
    · left; exact h
    · right; exact List.mem_cons_of_mem a h
  | case5 a b rest ha hb ih =>
    intro hc
    rw [show collapse_ws (a :: b :: rest) = ' ' :: collapse_ws (b :: rest) by
      simp [collapse_ws, ha, hb]] at hc
    rcases List.mem_cons.mp hc with h | h
    · left; exact h
    · rcases ih h with h' | h'
      · left; exact h'
      · right; exact List.mem_cons_of_mem a h'
  | case6 a b rest ha ih =>
    intro hc
    rw [show collapse_ws (a :: b :: rest) = a :: collapse_ws (b :: rest) by
      simp [collapse_ws, ha]] at hc
    rcases List.mem_cons.mp hc with h | h
    · right; simp [h]
    · rcases ih h with h' | h'
      · left; exact h'
      · right; exact List.mem_cons_of_mem a h'

theorem collapse_ws_cons_not_ws {b : Char} {rest : Text} (hb : isWS b = false) :
    ∃ ys, collapse_ws (b :: rest) = b :: ys := by
  cases rest with
  | nil => exact ⟨[], by simp [collapse_ws, hb]⟩
  | cons d ds => exact ⟨collapse_ws (d :: ds), by simp [collapse_ws, hb]⟩

theorem good_ws_collapse_ws (t : Text) : good_ws (collapse_ws t) = true := by
  induction t using collapse_ws.induct with
  | case1 => rfl
  | case2 d hd =>
    rw [show collapse_ws [d] = [' '] by simp [collapse_ws, hd]]
    decide
  | case3 d hd =>
    rw [show collapse_ws [d] = [d] by simp [collapse_ws, hd]]
    simp [good_ws, hd]
  | case4 a b rest ha hb ih =>
    rw [show collapse_ws (a :: b :: rest) = collapse_ws (b :: rest) by
      simp [collapse_ws, ha, hb]]
    exact ih
  | case5 a b rest ha hb ih =>
    rw [show collapse_ws (a :: b :: rest) = ' ' :: collapse_ws (b :: rest) by
      simp [collapse_ws, ha, hb]]
    obtain ⟨ys, hys⟩ := collapse_ws_cons_not_ws (by simpa using hb)
    rw [hys] at ih ⊢
    simp [good_ws, ih, hb]
  | case6 a b rest ha ih =>
    rw [show collapse_ws (a :: b :: rest) = a :: collapse_ws (b :: rest) by
      simp [collapse_ws, ha]]
    cases hcol : collapse_ws (b :: rest) with
    | nil => simp [good_ws, ha]
    | cons x xs =>
      rw [hcol] at ih
      simp [good_ws, ha, ih]

theorem good_ws_tail {a : Char} {l : Text} (h : good_ws (a :: l) = true) :
    good_ws l = true := by
  cases l with
  | nil => rfl
  | cons b bs =>
    have h' := h
    simp only [good_ws] at h'
    exact (Bool.and_eq_true_iff.mp h').2

theorem collapse_ws_of_good_ws :
    ∀ {t : Text}, good_ws t = true → collapse_ws t = t := by
  intro t
  induction t using collapse_ws.induct with
  | case1 => intro _; rfl
  | case2 d hd =>
    intro h
    have hd' : d = ' ' := by simpa [good_ws, hd] using h
    simp [collapse_ws, hd, hd']
  | case3 d hd =>
    intro _
    simp [collapse_ws, hd]
  | case4 a b rest ha hb ih =>
    intro h
    exfalso
    simp [good_ws, ha, hb] at h
  | case5 a b rest ha hb ih =>
    intro h
    simp only [good_ws] at h
    obtain ⟨h1, h2⟩ := Bool.and_eq_true_iff.mp h
    have ha' : a = ' ' := by simpa [ha, hb] using h1
    rw [show collapse_ws (a :: b :: rest) = ' ' :: collapse_ws (b :: rest) by
      simp [collapse_ws, ha, hb]]
    rw [ih h2, ha']
  | case6 a b rest ha ih =>
    intro h
    have h2 : good_ws (b :: rest) = true := good_ws_tail h
    rw [show collapse_ws (a :: b :: rest) = a :: collapse_ws (b :: rest) by
      simp [collapse_ws, ha]]
    rw [ih h2]

theorem good_ws_dropWhile {t : Text} (h : good_ws t = true) :
    good_ws (t.dropWhile isWS) = true := by
  induction t with
  | nil => rfl
  | cons c cs ih =>
    by_cases hc : isWS c = true
    · simp only [List.dropWhile_cons, hc, if_pos]
      exact ih (good_ws_tail h)
    · simpa [List.dropWhile_cons, hc] using h

theorem drop_trail_ws_shape (c : Char) (cs : Text) :
    drop_trail_ws (c :: cs) = [] ∨ ∃ r, drop_trail_ws (c :: cs) = c :: r := by
  simp only [drop_trail_ws]
  cases drop_trail_ws cs with
  | nil =>
    by_cases hc : isWS c = true
    · left; simp [hc]
    · right; exact ⟨[], by simp [hc]⟩
  | cons x xs => right; exact ⟨x :: xs, rfl⟩

theorem good_ws_drop_trail_ws :
    ∀ {t : Text}, good_ws t = true → good_ws (drop_trail_ws t) = true := by
  intro t
  induction t with
  | nil => intro _; rfl
  | cons c cs ih =>
    intro h
    simp only [drop_trail_ws]
    cases hdt : drop_trail_ws cs with
    | nil =>
      by_cases hc : isWS c = true
      · simp [hc, good_ws]
      · simp [hc, good_ws]
    | cons x xs =>
      have hgood : good_ws (x :: xs) = true := hdt ▸ ih (good_ws_tail h)
      cases cs with
      | nil => simp [drop_trail_ws] at hdt
      | cons d ds =>
        rcases drop_trail_ws_shape d ds with hnil | ⟨r, hr⟩
        · rw [hnil] at hdt; exact absurd hdt (by simp)
        · rw [hr] at hdt
          have hxd : x = d := ((List.cons.injEq .. ▸ hdt).1).symm
          subst hxd
          have hpair : (!isWS c || (c == ' ' && !isWS x)) = true := by
            have h' := h
            simp only [good_ws] at h'
            exact (Bool.and_eq_true_iff.mp h').1
          simp only [good_ws, hgood, Bool.and_true]
          exact hpair

theorem mem_drop_trail_ws {c : Char} :
    ∀ {t : Text}, c ∈ drop_trail_ws t → c ∈ t := by
  intro t
  induction t with
  | nil => intro h; simp [drop_trail_ws] at h
  | cons d ds ih =>
    intro h
    simp only [drop_trail_ws] at h
    revert h
    cases hdt : drop_trail_ws ds with
    | nil =>
      intro h
      by_cases hd : isWS d = true
      · simp [hd] at h
      · simp [hd] at h; simp [h]
    | cons x xs =>
      intro h
      rcases List.mem_cons.mp h with h' | h'
      · simp [h']
      · exact List.mem_cons_of_mem d (ih (hdt ▸ h'))

theorem dropWhile_head_false (p : Char → Bool) (t : Text) :
    t.dropWhile p = [] ∨ ∃ c cs, t.dropWhile p = c :: cs ∧ p c = false := by
  induction t with
  | nil => left; rfl
  | cons d ds ih =>
    by_cases hd : p d = true
    · simpa [List.dropWhile_cons, hd] using ih
    · right
      refine ⟨d, ds, by simp [List.dropWhile_cons, hd], by simpa using hd⟩

theorem drop_trail_ws_cons (c : Char) (l : Text) :
    drop_trail_ws (c :: l) =
      match drop_trail_ws l with
      | [] => if isWS c = true then [] else [c]
      | x :: xs => c :: x :: xs := by
  simp only [drop_trail_ws]
  cases drop_trail_ws l <;> rfl

theorem drop_trail_ws_idem :
    ∀ (t : Text), drop_trail_ws (drop_trail_ws t) = drop_trail_ws t := by
  intro t
  induction t with
  | nil => rfl
  | cons c cs ih =>
    rw [drop_trail_ws_cons c cs]
    cases hdt : drop_trail_ws cs with
    | nil =>
      by_cases hc : isWS c = true
      · simp [hc, drop_trail_ws]
      · simp [hc, drop_trail_ws]
    | cons x xs =>
      rw [hdt] at ih
      simp only
      rw [drop_trail_ws_cons c (x :: xs), ih]

theorem py_strip_no_lead_ws (t : Text) :
    (py_strip t).dropWhile isWS = py_strip t := by
  unfold py_strip
  rcases dropWhile_head_false isWS t with hnil | ⟨c, cs, heq, hc⟩
  · rw [hnil]; rfl
  · rw [heq]
    rcases drop_trail_ws_shape c cs with hnil' | ⟨r, hr⟩
    · rw [hnil']; rfl
    · rw [hr]
      simp [List.dropWhile_cons, hc]

theorem py_strip_idem (t : Text) : py_strip (py_strip t) = py_strip t := by
  conv_lhs => rw [py_strip, py_strip_no_lead_ws]
  unfold py_strip
  exact drop_trail_ws_idem _

theorem good_ws_py_strip {t : Text} (h : good_ws t = true) :
    good_ws (py_strip t) = true :=
  good_ws_drop_trail_ws (good_ws_dropWhile h)

theorem mem_py_strip {c : Char} {t : Text} (h : c ∈ py_strip t) : c ∈ t :=
  (List.dropWhile_suffix isWS).subset (mem_drop_trail_ws h)

theorem clean_title_decor_free {s : Text} {c : Char} (h : c ∈ clean_title s) :
    isDecor c = false := by
  unfold clean_title at h
  rcases mem_collapse_ws (mem_py_strip h) with hsp | hmem
  · subst hsp; rfl
  · have := (List.mem_filter.mp hmem).2
    simpa using this

theorem remove_decor_eq_self {t : Text} (h : ∀ c ∈ t, isDecor c = false) :
    remove_decor t = t := by
  unfold remove_decor
  rw [List.filter_eq_self]
  intro a ha
  simp [h a ha]

/-! ### Shape of the emitted nodes -/

theorem dieu_node_type (d : Text) : (dieu_node d).type = NodeType.ARTICLE := rfl

theorem muc_node_type (m : MucMatch) : (muc_node m).type = NodeType.SECTION := rfl

theorem muc_node_children (m : MucMatch) :
    (muc_node m).children = (dieu_findall (split_title m.body).2).map dieu_node := rfl

theorem chuong_node_type (m : ChMatch) : (chuong_node m).type = NodeType.CHAPTER := by
  simp only [chuong_node]
  by_cases h : (muc_findall (split_title m.body).2).isEmpty = true <;>
    simp [h, Node.type]

theorem chuong_node_children_sections {m : ChMatch}
    (h : muc_findall (split_title m.body).2 ≠ []) :
    (chuong_node m).children = (muc_findall (split_title m.body).2).map muc_node := by
  simp only [chuong_node]
  have h' : (muc_findall (split_title m.body).2).isEmpty = false := by
    simpa [List.isEmpty_iff] using h
  simp [h', Node.children]

theorem parse_data_eq_chuong {content : Text} (h : chuong_findall content ≠ []) :
    parse_data content = (chuong_findall content).map chuong_node := by
  simp only [parse_data]
  have h' : (chuong_findall content).isEmpty = false := by
    simpa [List.isEmpty_iff] using h
  simp [h']

theorem parse_data_eq_muc {content : Text} (h1 : chuong_findall content = [])
    (h2 : muc_findall content ≠ []) :
    parse_data content = (muc_findall content).map muc_node := by
  simp only [parse_data]
  have h2' : (muc_findall content).isEmpty = false := by
    simpa [List.isEmpty_iff] using h2
  simp [h1, h2']

theorem parse_data_eq_dieu {content : Text} (h1 : chuong_findall content = [])
    (h2 : muc_findall content = []) :
    parse_data content = (dieu_findall content).map dieu_node := by
  simp only [parse_data]
  simp [h1, h2]

/-! ### No asterisk survives in ARTICLE contents -/

theorem replace_all_aux_star :
    ∀ (fuel : Nat) (t : Text), t.length ≤ fuel →
      '*' ∉ replace_all_aux (s2t "*") fuel t := by
  intro fuel
  induction fuel with
  | zero =>
    intro t h
    have ht : t = [] := List.length_eq_zero.mp (Nat.le_zero.mp h)
    subst ht
    simp [replace_all_aux]
  | succ fuel ih =>
    intro t h
    cases t with
    | nil => simp [replace_all_aux]
    | cons c cs =>
      by_cases hc : (s2t "*").isPrefixOf (c :: cs) = true
      · simp only [replace_all_aux, hc, if_pos]
        have hdrop : (c :: cs).drop (s2t "*").length = cs := by
          simp [s2t]
        rw [hdrop]
        exact ih cs (by simp at h; omega)
      · simp only [replace_all_aux, hc, Bool.false_eq_true, if_false]
        intro hmem
        rcases List.mem_cons.mp hmem with h' | h'
        · apply hc
          rw [← h']
          rw [show s2t "*" = ['*'] from rfl]
          simp [List.isPrefixOf]
        · exact ih cs (by simp at h; omega) h'

theorem star_notin_replace_all (t : Text) : '*' ∉ replace_all t (s2t "*") := by
  simp only [replace_all]
  have : (s2t "*").isEmpty = false := rfl
  rw [this]
  simp only [Bool.false_eq_true, if_false]
  exact replace_all_aux_star t.length t le_rfl

theorem dieu_node_star_free (d : Text) : star_free (dieu_node d) = true := by
  rw [dieu_node, star_free, star_free_list]
  have hall : (py_strip (replace_all d (s2t "*"))).all (fun x => x != '*') = true := by
    rw [List.all_eq_true]
    intro x hx
    have hxmem : x ∈ replace_all d (s2t "*") := mem_py_strip hx
    have : x ≠ '*' := fun he => star_notin_replace_all d (he ▸ hxmem)
    simpa using this
  simp [hall]

theorem star_free_list_map_dieu (l : List Text) :
    star_free_list (l.map dieu_node) = true := by
  induction l with
  | nil => rfl
  | cons d ds ih =>
    rw [List.map_cons, star_free_list, dieu_node_star_free d, ih]
    rfl

theorem muc_node_star_free (m : MucMatch) : star_free (muc_node m) = true := by
  rw [muc_node, star_free]
  simp [star_free_list_map_dieu]

theorem star_free_list_map_muc (l : List MucMatch) :
    star_free_list (l.map muc_node) = true := by
  induction l with
  | nil => rfl
  | cons m ms ih =>
    rw [List.map_cons, star_free_list, muc_node_star_free m, ih]
    rfl

theorem chuong_node_star_free (m : ChMatch) : star_free (chuong_node m) = true := by
  rw [chuong_node]
  by_cases h : (muc_findall (split_title m.body).2).isEmpty = true
  · simp only [h, if_pos]
    rw [star_free]
    simp [star_free_list_map_dieu]
  · simp only [h, Bool.false_eq_true, if_false]
    rw [star_free]
    simp [star_free_list_map_muc]

theorem star_free_list_map_chuong (l : List ChMatch) :
    star_free_list (l.map chuong_node) = true := by
  induction l with
  | nil => rfl
  | cons m ms ih =>
    rw [List.map_cons, star_free_list, chuong_node_star_free m, ih]
    rfl

/-! ### Claims -/

/-- C1 counterexample: on the chapter body `"AB\nĐiều 1. AB x."` the splitter
finds the title `"AB"`, and the remainder the code passes down is NOT the
body with only the first occurrence removed: `str.replace` also removes the
later `"AB"` inside the article text. -/
theorem c1_counterexample :
    title_search (s2t "AB\nĐiều 1. AB x.") = some (s2t "AB") ∧
    clean_title (s2t "AB") = s2t "AB" ∧
    (split_title (s2t "AB\nĐiều 1. AB x.")).2 = s2t "Điều 1.  x." ∧
    (split_title (s2t "AB\nĐiều 1. AB x.")).2 ≠
      remove_first (s2t "AB\nĐiều 1. AB x.") (s2t "AB") ∧
    (split_title (s2t "AB\nĐiều 1. AB x.")).2 ≠
      py_strip (remove_first (s2t "AB\nĐiều 1. AB x.") (s2t "AB")) := by
  refine ⟨by decide, by decide, by decide, by decide, by decide⟩

/-- C1 (amended): the remainder is the stripped body with EVERY left-to-right
occurrence of the cleaned title removed (Python `str.replace`); it agrees
with first-occurrence removal exactly when the cleaned title occurs at most
once in the body. -/
theorem c1_remainder_replace_all (body m : Text) (h : title_search body = some m)
    (hone : count_occ body (clean_title m) ≤ 1) :
    (split_title body).2 = py_strip (remove_first body (clean_title m)) := by
  simp only [split_title, h]
  rw [replace_all_eq_remove_first hone]

theorem c1_witness :
    title_search (s2t "T\nĐiều 1. x") = some (s2t "T") ∧
    count_occ (s2t "T\nĐiều 1. x") (clean_title (s2t "T")) ≤ 1 ∧
    (split_title (s2t "T\nĐiều 1. x")).2 =
      py_strip (remove_first (s2t "T\nĐiều 1. x") (clean_title (s2t "T"))) :=
  ⟨by decide, by decide,
    c1_remainder_replace_all (s2t "T\nĐiều 1. x") (s2t "T") (by decide) (by decide)⟩

/-- One top-level CHAPTER node per chapter match, and chapters whose remainder
contains a Mục match carry only SECTION children, whose children are all
ARTICLE nodes. -/
def chapter_cascade_prop (content : Text) : Prop :=
  parse_data content = (chuong_findall content).map chuong_node ∧
  (parse_data content).length = (chuong_findall content).length ∧
  (∀ n ∈ parse_data content, n.type = NodeType.CHAPTER) ∧
  ∀ m ∈ chuong_findall content,
    muc_findall (split_title m.body).2 ≠ [] →
      ∀ c ∈ (chuong_node m).children,
        c.type = NodeType.SECTION ∧ ∀ a ∈ c.children, a.type = NodeType.ARTICLE

/-- C2: whenever chapter matches exist, the cascade emits exactly one CHAPTER
node per match (in order), and a chapter whose remainder contains Section
markers gets SECTION children whose children are ARTICLE nodes - never
ARTICLE nodes directly under the chapter. -/
theorem c2_one_chapter_node_per_match (content : Text)
    (h : chuong_findall content ≠ []) : chapter_cascade_prop content := by
  have hmap := parse_data_eq_chuong h
  refine ⟨hmap, by rw [hmap, List.length_map], ?_, ?_⟩
  · intro n hn
    rw [hmap] at hn
    obtain ⟨m, -, rfl⟩ := List.mem_map.mp hn
    exact chuong_node_type m
  · intro m hm hmuc c hc
    rw [chuong_node_children_sections hmuc] at hc
    obtain ⟨mu, -, rfl⟩ := List.mem_map.mp hc
    refine ⟨muc_node_type mu, ?_⟩
    intro a ha
    rw [muc_node_children] at ha
    obtain ⟨d, -, rfl⟩ := List.mem_map.mp ha
    exact dieu_node_type d

theorem c2_witness :
    chuong_findall (s2t "Chương I\nT\nMục 1. A\nĐiều 1. x.\nMục 2. B\nĐiều 2. y.") ≠ [] ∧
    chapter_cascade_prop (s2t "Chương I\nT\nMục 1. A\nĐiều 1. x.\nMục 2. B\nĐiều 2. y.") :=
  ⟨by decide,
    c2_one_chapter_node_per_match
      (s2t "Chương I\nT\nMục 1. A\nĐiều 1. x.\nMục 2. B\nĐiều 2. y.") (by decide)⟩

/-- C3: when the `toanvancontent` container is absent, `soup.find` returns
`None` and `parse` raises `AttributeError` on `.get_text` instead of
returning an empty sequence; only an EMPTY found content yields the quiet
`{}` result. -/
theorem c3_missing_container_raises :
    parse_from_soup none = Except.error () ∧
    (∀ content, parse_from_soup (some content) = Except.ok (parse_content content)) ∧
    parse_from_soup (some []) = Except.ok ⟨[], []⟩ :=
  ⟨rfl, fun _ => rfl, rfl⟩

/-- C4 counterexample: on `"Chương I\nAlpha\nChương II\nBeta"` the body spans
are `"Alpha"` and `"Beta"`; their concatenation omits the whitespace and the
second marker, so it does not reconstruct the post-first-marker text. -/
theorem c4_counterexample :
    (chuong_findall (s2t "Chương I\nAlpha\nChương II\nBeta")).map ChMatch.body =
      [s2t "Alpha", s2t "Beta"] ∧
    s2t "Chương I\nAlpha\nChương II\nBeta" =
      s2t "Chương I" ++ s2t "\nAlpha\nChương II\nBeta" ∧
    ((chuong_findall (s2t "Chương I\nAlpha\nChương II\nBeta")).map ChMatch.body).flatten ≠
      s2t "\nAlpha\nChương II\nBeta" := by
  refine ⟨by decide, rfl, by decide⟩

/-- C4 (amended): the FULL chapter match spans (leading whitespace, marker,
whitespace after it, body) tile the text with no gaps or overlaps: their
ordered concatenation is a suffix of the document, and is the whole document
whenever a chapter match starts at its beginning; the body spans alone omit
each marker and its surrounding whitespace. -/
theorem c4_full_span_partition (content : Text) :
    (∃ pre, content = pre ++ ((chuong_findall content).map ChMatch.full).flatten) ∧
    ((chuong_match_at content).isSome = true →
      content = ((chuong_findall content).map ChMatch.full).flatten) := by
  constructor
  · exact chuong_findall_aux_suffix (content.length + 1) content (by omega)
  · intro h
    exact (chuong_findall_aux_join (content.length + 1) content (by omega) h).symm

theorem c4_witness :
    (chuong_match_at (s2t "Chương I\nAlpha\nChương II\nBeta")).isSome = true ∧
    s2t "Chương I\nAlpha\nChương II\nBeta" =
      ((chuong_findall (s2t "Chương I\nAlpha\nChương II\nBeta")).map ChMatch.full).flatten :=
  ⟨by decide,
    (c4_full_span_partition (s2t "Chương I\nAlpha\nChương II\nBeta")).2 (by decide)⟩

/-- C5: with zero chapter matches the top level is never CHAPTER; more
precisely the top-level kind is CHAPTER when chapter matches exist, else
SECTION when section matches exist, else ARTICLE. -/
theorem c5_fallback_monotonicity (content : Text) :
    (chuong_findall content = [] →
      ∀ n ∈ parse_data content, n.type ≠ NodeType.CHAPTER) ∧
    (chuong_findall content ≠ [] →
      ∀ n ∈ parse_data content, n.type = NodeType.CHAPTER) ∧
    (chuong_findall content = [] → muc_findall content ≠ [] →
      ∀ n ∈ parse_data content, n.type = NodeType.SECTION) ∧
    (chuong_findall content = [] → muc_findall content = [] →
      ∀ n ∈ parse_data content, n.type = NodeType.ARTICLE) := by
  refine ⟨?_, ?_, ?_, ?_⟩
  · intro h1 n hn
    by_cases h2 : muc_findall content = []
    · rw [parse_data_eq_dieu h1 h2] at hn
      obtain ⟨d, -, rfl⟩ := List.mem_map.mp hn
      rw [dieu_node_type]
      simp
    · rw [parse_data_eq_muc h1 h2] at hn
      obtain ⟨m, -, rfl⟩ := List.mem_map.mp hn
      rw [muc_node_type]
      simp
  · intro h n hn
    rw [parse_data_eq_chuong h] at hn
    obtain ⟨m, -, rfl⟩ := List.mem_map.mp hn
    exact chuong_node_type m
  · intro h1 h2 n hn
    rw [parse_data_eq_muc h1 h2] at hn
    obtain ⟨m, -, rfl⟩ := List.mem_map.mp hn
    exact muc_node_type m
  · intro h1 h2 n hn
    rw [parse_data_eq_dieu h1 h2] at hn
    obtain ⟨d, -, rfl⟩ := List.mem_map.mp hn
    exact dieu_node_type d

theorem c5_witness :
    chuong_findall (s2t "Mục 1. A\nĐiều 1. x.") = [] ∧
    muc_findall (s2t "Mục 1. A\nĐiều 1. x.") ≠ [] ∧
    ∀ n ∈ parse_data (s2t "Mục 1. A\nĐiều 1. x."), n.type = NodeType.SECTION :=
  ⟨by decide, by decide,
    (c5_fallback_monotonicity (s2t "Mục 1. A\nĐiều 1. x.")).2.2.1 (by decide) (by decide)⟩

/-- C6 counterexample: a parse invocation on non-empty content is not free of
side effects - it writes the extracted content to the file `content.txt`. -/
theorem c6_counterexample : (parse_content (s2t "x")).writes ≠ [] := by
  decide

/-- C6 (amended): each parse invocation on non-empty content performs exactly
one side effect, overwriting the shared file `content.txt` with the input
text; the emitted node list is a pure function of the input. -/
theorem c6_single_write (content : Text) (h : content ≠ []) :
    (parse_content content).writes = [(s2t "content.txt", content)] ∧
    (parse_content content).data = parse_data content := by
  have h' : content.isEmpty = false := by simpa [List.isEmpty_iff] using h
  simp [parse_content, h']

theorem c6_witness :
    s2t "x" ≠ [] ∧
    (parse_content (s2t "x")).writes = [(s2t "content.txt", s2t "x")] ∧
    (parse_content (s2t "x")).data = parse_data (s2t "x") := by
  refine ⟨by decide, ?_, ?_⟩
  · exact (c6_single_write (s2t "x") (by decide)).1
  · exact (c6_single_write (s2t "x") (by decide)).2

/-- C7: Scenario A - one CHAPTER node with id `"Chương I"`, title
`"Quy định chung"`, and exactly the two ARTICLE children in order. -/
theorem c7_scenario_a :
    parse_data (s2t "Chương I\nQuy định chung\nĐiều 1. Nội dung một.\nĐiều 2. Nội dung hai.") =
      [Node.node NodeType.CHAPTER (s2t "Chương I") (s2t "Quy định chung") []
        [Node.node NodeType.ARTICLE [] [] (s2t "Điều 1. Nội dung một.") [],
         Node.node NodeType.ARTICLE [] [] (s2t "Điều 2. Nội dung hai.") []]] := by
  rfl

/-- C8: a body containing no Section or Article marker (keyword followed by
digits, the boundary grammar of the title splitter) anywhere yields an empty
title and the stripped body as remainder. -/
theorem c8_no_marker_empty_title (body : Text)
    (h : ∀ s ∈ body.tails, title_boundary_core s = false) :
    split_title body = ([], py_strip body) := by
  have hb : first_boundary body = none := first_boundary_of_no_core h
  simp [split_title, title_search, hb]

theorem c8_witness :
    (∀ s ∈ (s2t "just plain text").tails, title_boundary_core s = false) ∧
    split_title (s2t "just plain text") = ([], py_strip (s2t "just plain text")) :=
  ⟨by decide, c8_no_marker_empty_title (s2t "just plain text") (by decide)⟩

/-- C9: the title cleaning (decorative-character removal, whitespace collapse,
strip) is idempotent. -/
theorem c9_clean_title_idempotent (s : Text) :
    clean_title (clean_title s) = clean_title s := by
  have hdecor : remove_decor (clean_title s) = clean_title s :=
    remove_decor_eq_self (fun c hc => clean_title_decor_free hc)
  have hgood : good_ws (collapse_ws (remove_decor s)) = true := good_ws_collapse_ws _
  have hgood2 : good_ws (clean_title s) = true := good_ws_py_strip hgood
  have hcol : collapse_ws (clean_title s) = clean_title s :=
    collapse_ws_of_good_ws hgood2
  calc clean_title (clean_title s)
      = py_strip (collapse_ws (remove_decor (clean_title s))) := rfl
    _ = py_strip (collapse_ws (clean_title s)) := by rw [hdecor]
    _ = py_strip (clean_title s) := by rw [hcol]
    _ = clean_title s := py_strip_idem _

/-- C10: every ARTICLE node produced by the cascade, in every branch, has a
content containing no `'*'` character. -/
theorem c10_articles_star_free (content : Text) :
    star_free_list (parse_data content) = true := by
  by_cases h1 : chuong_findall content = []
  · by_cases h2 : muc_findall content = []
    · rw [parse_data_eq_dieu h1 h2]
      exact star_free_list_map_dieu _
    · rw [parse_data_eq_muc h1 h2]
      exact star_free_list_map_muc _
  · rw [parse_data_eq_chuong h1]
    exact star_free_list_map_chuong _

end Crawl
